import Mathlib

/-!
Shallow embedding of the JSPlaskin data layer (`js/data.js`) and the
sensitivity filter (`js/app.js`).

JavaScript numbers are modelled exactly, as an inductive type with NaN and
the two infinities over exact rationals; floating-point rounding, signed
zero and the hexadecimal/`Infinity` spellings accepted by `Number` are not
modelled (none of the verified claims depends on them).  Strings are
modelled as `List Char`; `String.data` bridges to Lean string literals.
-/

/-- A JavaScript number: NaN, +Infinity, -Infinity, or a finite value
(modelled as an exact rational). -/
inductive JSNum where
  | nan : JSNum
  | inf : JSNum
  | ninf : JSNum
  | num : ℚ → JSNum
deriving DecidableEq, Repr

namespace JSNum

/-- `x.isNaN`. -/
def isNaN : JSNum → Bool
  | nan => true
  | _ => false

/-- JavaScript multiplication (`a * b`); `undefined` operands are coerced
to NaN by the caller. -/
def jsMul : JSNum → JSNum → JSNum
  | nan, _ => nan
  | _, nan => nan
  | inf, inf => inf
  | inf, ninf => ninf
  | ninf, inf => ninf
  | ninf, ninf => inf
  | inf, num b => if b = 0 then nan else if 0 < b then inf else ninf
  | num a, inf => if a = 0 then nan else if 0 < a then inf else ninf
  | ninf, num b => if b = 0 then nan else if 0 < b then ninf else inf
  | num a, ninf => if a = 0 then nan else if 0 < a then ninf else inf
  | num a, num b => num (a * b)

/-- JavaScript subtraction (`a - b`). -/
def jsSub : JSNum → JSNum → JSNum
  | nan, _ => nan
  | _, nan => nan
  | inf, inf => nan
  | ninf, ninf => nan
  | inf, _ => inf
  | ninf, _ => ninf
  | num _, inf => ninf
  | num _, ninf => inf
  | num a, num b => num (a - b)

/-- JavaScript division (`a / b`); signed zero is identified with zero. -/
def jsDiv : JSNum → JSNum → JSNum
  | nan, _ => nan
  | _, nan => nan
  | inf, inf => nan
  | inf, ninf => nan
  | ninf, inf => nan
  | ninf, ninf => nan
  | inf, num b => if b < 0 then ninf else inf
  | ninf, num b => if b < 0 then inf else ninf
  | num _, inf => num 0
  | num _, ninf => num 0
  | num a, num b =>
    if b = 0 then (if a = 0 then nan else if 0 < a then inf else ninf)
    else num (a / b)

/-- JavaScript strict `<` comparison: false whenever NaN is involved. -/
def jsLtB : JSNum → JSNum → Bool
  | nan, _ => false
  | _, nan => false
  | ninf, ninf => false
  | ninf, _ => true
  | _, ninf => false
  | inf, _ => false
  | num _, inf => true
  | num a, num b => decide (a < b)

/-- JavaScript strict `>` comparison. -/
def jsGtB (a b : JSNum) : Bool := jsLtB b a

/-- Two-argument `Math.max`: NaN-propagating maximum. -/
def jsMax2 : JSNum → JSNum → JSNum
  | nan, _ => nan
  | _, nan => nan
  | inf, _ => inf
  | _, inf => inf
  | ninf, b => b
  | a, ninf => a
  | num a, num b => num (max a b)

end JSNum

/-- `Math.max(...l)`: `-Infinity` on the empty spread, NaN-propagating. -/
def jsMaxList (l : List JSNum) : JSNum := l.foldl JSNum.jsMax2 JSNum.ninf

-- ---------------------------------------------------------------
-- Text utilities (JS string methods over `List Char`)
-- ---------------------------------------------------------------

/-- Drop leading whitespace (one side of `String.prototype.trim`). -/
def trimLeft (l : List Char) : List Char := l.dropWhile Char.isWhitespace

/-- `s.trim()`: strip whitespace from both ends. -/
def jsTrim (l : List Char) : List Char := trimLeft (trimLeft l.reverse).reverse

/-- `s.split('\n')`: split at every newline, keeping empty pieces. -/
def splitLines : List Char → List (List Char)
  | [] => [[]]
  | c :: cs =>
    match splitLines cs with
    | [] => []
    | g :: gs => if c = '\n' then [] :: g :: gs else (c :: g) :: gs

/-- `s.split(/\s+/)`: maximal whitespace runs are separators; a leading
run yields an initial empty token and a trailing run a final empty token,
as in JavaScript.  The auxiliary Bool records whether the first character
of the already-processed suffix was whitespace. -/
def splitWSAux : List Char → List (List Char) × Bool
  | [] => ([[]], false)
  | c :: cs =>
    let r := splitWSAux cs
    if c.isWhitespace then
      if r.2 then (r.1, true)
      else (([] : List Char) :: r.1, true)
    else
      match r.1 with
      | [] => ([[c]], false)
      | g :: gs => ((c :: g) :: gs, false)

/-- `s.split(/\s+/)`. -/
def splitWS (l : List Char) : List (List Char) := (splitWSAux l).1

-- ---------------------------------------------------------------
-- Number parsing (`Number(token)`, `parseInt(key)`)
-- ---------------------------------------------------------------

/-- Numeric value of a decimal digit character. -/
def digitVal (c : Char) : ℕ := c.toNat - '0'.toNat

/-- Value of a digit string, most significant first. -/
def digitsToNat : List Char → ℕ → ℕ
  | [], acc => acc
  | c :: cs, acc => digitsToNat cs (acc * 10 + digitVal c)

/-- Exponent digits: all remaining characters must be digits. -/
def expDigits (ds : List Char) : Option ℤ :=
  if ds ≠ [] ∧ ds.all Char.isDigit then some (digitsToNat ds 0 : ℕ) else none

/-- Optionally signed exponent digits. -/
def parseExpTail : List Char → Option ℤ
  | '+' :: ds => expDigits ds
  | '-' :: ds => (expDigits ds).map Neg.neg
  | ds => expDigits ds

/-- The exponent part of a decimal literal; empty input means exponent 0. -/
def parseExp : List Char → Option ℤ
  | [] => some 0
  | 'e' :: rest => parseExpTail rest
  | 'E' :: rest => parseExpTail rest
  | _ => none

/-- Mantissa value from integer and fraction digit strings. -/
def mantissaVal (ip fp : List Char) : ℚ :=
  (digitsToNat ip 0 : ℚ) + (digitsToNat fp 0 : ℚ) / ((10 : ℚ) ^ fp.length)

/-- Unsigned decimal literal `digits [. digits] [e[±]digits]`. -/
def parseDec (l : List Char) : Option ℚ :=
  let ip := l.takeWhile Char.isDigit
  let r1 := l.dropWhile Char.isDigit
  match r1 with
  | '.' :: r2 =>
    let fp := r2.takeWhile Char.isDigit
    let r3 := r2.dropWhile Char.isDigit
    if ip = [] ∧ fp = [] then none
    else (parseExp r3).map (fun e => mantissaVal ip fp * (10 : ℚ) ^ e)
  | _ =>
    if ip = [] then none
    else (parseExp r1).map (fun e => (digitsToNat ip 0 : ℚ) * (10 : ℚ) ^ e)

/-- Optionally signed decimal literal. -/
def parseSigned : List Char → Option ℚ
  | '+' :: rest => parseDec rest
  | '-' :: rest => (parseDec rest).map Neg.neg
  | l => parseDec l

/-- `Number(token)`: empty (after trimming) is 0, decimal literals parse
exactly, anything else is NaN.  (Hexadecimal and `Infinity` spellings,
which no data file of this application uses, are not modelled.) -/
def jsNumber (l : List Char) : JSNum :=
  let t := jsTrim l
  if t = [] then JSNum.num 0
  else
    match parseSigned t with
    | some q => JSNum.num q
    | none => JSNum.nan

/-- `parseInt(key)` as used on group keys: leading sign and maximal run of
decimal digits; NaN when no digits are present. -/
def parseIntJS (l : List Char) : JSNum :=
  let t := trimLeft l
  let core := fun (ds : List Char) =>
    if ds.takeWhile Char.isDigit = [] then JSNum.nan
    else JSNum.num (digitsToNat (ds.takeWhile Char.isDigit) 0 : ℕ)
  match t with
  | '+' :: rest => core rest
  | '-' :: rest =>
    if rest.takeWhile Char.isDigit = [] then JSNum.nan
    else JSNum.num (-(digitsToNat (rest.takeWhile Char.isDigit) 0 : ℕ) : ℚ)
  | _ => core t

-- ---------------------------------------------------------------
-- Stable insertion sort (model of `Array.prototype.sort` with a
-- numeric comparator; ES2019 sort is stable)
-- ---------------------------------------------------------------

/-- Insert `x` before the first element `y` with `lt x y`; with a
consistent comparator this is the stable-sort insertion step. -/
def insertCmp (lt : α → α → Bool) (x : α) : List α → List α
  | [] => [x]
  | y :: ys => if lt x y then x :: y :: ys else y :: insertCmp lt x ys

/-- Stable sort by the strict comparator `lt` (insertion sort). -/
def sortCmpGo (lt : α → α → Bool) : List α → List α → List α
  | [], acc => acc
  | x :: xs, acc => sortCmpGo lt xs (insertCmp lt x acc)

/-- Stable sort by the strict comparator `lt`. -/
def sortCmp (lt : α → α → Bool) (l : List α) : List α := sortCmpGo lt l []

-- ---------------------------------------------------------------
-- The canonical data model (`ModelData` in js/data.js)
-- ---------------------------------------------------------------

/-- The canonical dataset: label lists, time axis, stoichiometric matrix
and the three (sparse, 1-based) series accessors.  The accessors return
`none` exactly where the JavaScript dictionaries hold `undefined`. -/
structure ModelData where
  species : List (List Char)
  reactions : List (List Char)
  conditions : List (List Char)
  t : List JSNum
  sourceMatrix : List (List JSNum)
  density : ℕ → Option (List JSNum)
  rate : ℕ → Option (List JSNum)
  condition : ℕ → Option (List JSNum)

/-- JavaScript array indexing `arr[i]` with a possibly negative index. -/
def listGetI (l : List α) (i : ℤ) : Option α :=
  if i < 0 then none else l[i.toNat]?

/-- `ModelData.sources(speciesIndex)` from js/data.js.  The result is the
association list in ascending reaction-index order (JS object iteration
order for integer-like keys).  An out-of-range column access yields
`undefined`, which `!== 0` lets through and which multiplies to NaN,
exactly as in JavaScript. -/
def ModelData.sources (d : ModelData) (speciesIndex : ℤ) : List (ℕ × List JSNum) :=
  match listGetI d.sourceMatrix (speciesIndex - 1) with
  | none => []
  | some row =>
    (List.range d.reactions.length).filterMap (fun rIdx =>
      let coeff := row[rIdx]?
      if coeff = some (JSNum.num 0) then none
      else
        match d.rate (rIdx + 1) with
        | none => none
        | some rateArr =>
          let c := coeff.getD JSNum.nan
          some (rIdx + 1, rateArr.map (fun v => JSNum.jsMul v c)))

-- ---------------------------------------------------------------
-- DirectoryData (text loader) from js/data.js
-- ---------------------------------------------------------------

/-- The per-line step of `DirectoryData._parseListFile`: the regex
`^\d+\s+(.*)` strips the leading integer index and the whitespace run
after it, and the captured group is trimmed; a line that does not match
is kept unchanged. -/
def stripIndex (line : List Char) : List Char :=
  let ds := line.takeWhile Char.isDigit
  let rest := line.dropWhile Char.isDigit
  if ds = [] then line
  else
    match rest with
    | [] => line
    | c :: _ => if c.isWhitespace then jsTrim (rest.dropWhile Char.isWhitespace) else line

/-- `DirectoryData._parseListFile`: split lines, trim, drop blanks, strip
the leading integer index. -/
def parseListFile (text : List Char) : List (List Char) :=
  (((splitLines text).map jsTrim).filter (fun l => l ≠ [])).map stripIndex

/-- One data line of `DirectoryData._parseDataFile`: `none` when the
(trimmed) line is empty or its first token does not parse as a number;
otherwise the time value and the remaining value tokens. -/
def dataRow (ln : List Char) : Option (JSNum × List JSNum) :=
  let l := jsTrim ln
  if l = [] then none
  else
    match (splitWS l).map jsNumber with
    | [] => none
    | v0 :: vrest => if v0.isNaN then none else some (v0, vrest)

/-- The accepted data rows of a file: all lines after the header that
`dataRow` accepts. -/
def dataRows (text : List Char) : List (JSNum × List JSNum) :=
  ((splitLines (jsTrim text)).drop 1).filterMap dataRow

/-- Result of `DirectoryData._parseDataFile`. -/
structure ParsedData where
  t : List JSNum
  cols : List (List JSNum)
deriving DecidableEq, Repr

/-- `DirectoryData._parseDataFile`: the column count is fixed by the first
accepted row; a missing entry of a shorter row reads as 0
(`row[j] !== undefined ? row[j] : 0`). -/
def parseDataFile (text : List Char) : ParsedData :=
  match dataRows text with
  | [] => ⟨[], []⟩
  | r :: _ =>
    ⟨(dataRows text).map Prod.fst,
     (List.range r.2.length).map (fun j =>
       (dataRows text).map (fun row => row.2.getD j (JSNum.num 0)))⟩

/-- `DirectoryData._parseMatrix`. -/
def parseMatrix (text : List Char) : List (List JSNum) :=
  (((splitLines (jsTrim text)).filter (fun l => jsTrim l ≠ [])).map (fun l =>
    (splitWS (jsTrim l)).map jsNumber))

/-- The text blobs handed to `DirectoryData._load`, already resolved from
file names (`_findFile`/`_readText`); `none` models an absent file. -/
structure DirFiles where
  speciesText : Option (List Char)
  reactionsText : Option (List Char)
  conditionsListText : Option (List Char)
  densitiesText : Option (List Char)
  ratesText : Option (List Char)
  matrixText : Option (List Char)
  conditionsDataText : Option (List Char)

/-- JavaScript truthiness of a file-read result: both `null` (the file is
absent) and the empty string are falsy, so in `_load` a zero-byte
mandatory file is fatal (`if (!speciesText) throw`) and a zero-byte
optional file disables its feature (`if (ratesText)`,
`reactionsText ? … : []`). -/
def jsTextFalsy : Option (List Char) → Bool
  | none => true
  | some s => s.isEmpty

/-- The dataset built by a successful `DirectoryData._load` (the body of
`_load` after the two mandatory-file throws).  Every branch keeps the
JS truthiness tests on the raw read results; `getD []` is only reached
behind a truthy (present and nonempty) check. -/
def dirModel (files : DirFiles) : ModelData where
  species := parseListFile (files.speciesText.getD [])
  reactions :=
    if jsTextFalsy files.reactionsText then []
    else parseListFile (files.reactionsText.getD [])
  conditions :=
    if jsTextFalsy files.conditionsListText then []
    else parseListFile (files.conditionsListText.getD [])
  t := (parseDataFile (files.densitiesText.getD [])).t
  sourceMatrix :=
    if jsTextFalsy files.matrixText then
      (parseListFile (files.speciesText.getD [])).map
        (fun _ => List.replicate
          (if jsTextFalsy files.reactionsText then ([] : List (List Char))
           else parseListFile (files.reactionsText.getD [])).length (JSNum.num 0))
    else parseMatrix (files.matrixText.getD [])
  density := fun k =>
    if 1 ≤ k ∧ k ≤ (parseListFile (files.speciesText.getD [])).length then
      some ((parseDataFile (files.densitiesText.getD [])).cols.getD (k - 1)
        (List.replicate (parseDataFile (files.densitiesText.getD [])).t.length
          (JSNum.num 0)))
    else none
  rate := fun k =>
    if jsTextFalsy files.ratesText then none
    else if 1 ≤ k ∧ k ≤ (if jsTextFalsy files.reactionsText then ([] : List (List Char))
        else parseListFile (files.reactionsText.getD [])).length then
      some ((parseDataFile (files.ratesText.getD [])).cols.getD (k - 1)
        (List.replicate (parseDataFile (files.densitiesText.getD [])).t.length
          (JSNum.num 0)))
    else none
  condition := fun k =>
    if jsTextFalsy files.conditionsDataText then none
    else if 1 ≤ k ∧ k ≤ (if jsTextFalsy files.conditionsListText then ([] : List (List Char))
        else parseListFile (files.conditionsListText.getD [])).length then
      some ((parseDataFile (files.conditionsDataText.getD [])).cols.getD (k - 1)
        (List.replicate (parseDataFile (files.densitiesText.getD [])).t.length
          (JSNum.num 0)))
    else none

/-- `DirectoryData._load` as a pure function from file contents to either
a fatal error message or the finished dataset: a falsy (absent or empty)
mandatory file aborts the load. -/
def dirLoad (files : DirFiles) : Except String ModelData :=
  if jsTextFalsy files.speciesText then .error "Species list file not found"
  else if jsTextFalsy files.densitiesText then .error "Densities file not found"
  else .ok (dirModel files)

/-- `DirectoryData.fromFiles` including the `Promise.all` of
`_readText` calls: a rejected read (I/O failure) rejects the whole load
before any parsing happens. -/
def dirLoadResult (reads : Except String DirFiles) : Except String ModelData :=
  match reads with
  | .error e => .error e
  | .ok files => dirLoad files

/-- The `data = await Loader.from…(…)` assignment inside the try/catch
of `loadH5File` / `loadZipFile` / `loadDirectory` in js/app.js: the
module-level dataset reference is reassigned only when the loader
resolved successfully; a thrown error reaches the catch block and
leaves it untouched. -/
def appLoad (prev : Option ModelData) (r : Except String ModelData) : Option ModelData :=
  match r with
  | .ok d => some d
  | .error _ => prev

-- ---------------------------------------------------------------
-- HDF5 loader: `readGroup` from js/data.js
-- ---------------------------------------------------------------

/-- A child dataset of an HDF5 sub-group: its key, its optional `name`
attribute, and its value array. -/
structure H5Child where
  key : List Char
  name : Option (List Char)
  value : List JSNum
deriving DecidableEq, Repr

/-- `readGroup` from `HDF5Data._parseH5`: sort the raw keys numerically
(`(a, b) => parseInt(a) - parseInt(b)`), then look each dataset up by key
and assign sequential 1-based indices; the display label falls back to
the raw key when the `name` attribute is missing. -/
def readGroup (children : List H5Child) : List (List Char) × List (ℕ × List JSNum) :=
  let keys := sortCmp (fun a b => JSNum.jsLtB (parseIntJS a) (parseIntJS b))
    (children.map (fun c => c.key))
  keys.foldl (fun acc key =>
    match children.find? (fun c => c.key == key) with
    | none => acc
    | some ds =>
      (acc.1 ++ [ds.name.getD ds.key], acc.2 ++ [(acc.1.length + 1, ds.value)])) ([], [])

/-- The content of one candidate root group (`main` or `zdplaskin`) of
an HDF5 file: the `t` dataset, the optional `source_matrix` (modelled
already split into rows; the JS reshaping loop is pure data plumbing),
and the three sub-groups.  `none` models an absent dataset/group, for
which `f.get` throws. -/
structure H5Group where
  t : Option (List JSNum)
  source_matrix : Option (List (List JSNum))
  density : Option (List H5Child)
  rate : Option (List H5Child)
  condition : Option (List H5Child)

/-- An HDF5 file as seen by `_parseH5`: the two candidate root groups. -/
structure H5File where
  main : Option H5Group
  zdplaskin : Option H5Group

/-- The root-probing step of `_parseH5`: try `f.get('main/t')` (throws
when the group or its `t` is missing), fall back to `zdplaskin/t`;
`none` when neither probe succeeds. -/
def rootWithT (f : H5File) : Option (H5Group × List JSNum) :=
  let probeZ :=
    match f.zdplaskin with
    | some g2 => g2.t.map (fun t2 => (g2, t2))
    | none => none
  match f.main with
  | some g =>
    match g.t with
    | some tArr => some (g, tArr)
    | none => probeZ
  | none => probeZ

/-- `HDF5Data._parseH5`: structural error when no root group answers the
`t` probe; the source matrix degrades to `[]` on any read failure; the
`density` and `rate` sub-groups are read without a try/catch, so their
absence makes `f.get` throw and the whole load fail (the message is the
HDF5 library's, modelled by a fixed string); the `condition` group is
optional. -/
def parseH5 (f : H5File) : Except String ModelData :=
  match rootWithT f with
  | none => .error "Unrecognised HDF5 structure (expected main/ or zdplaskin/ group)"
  | some (g, tArr) =>
    match g.density with
    | none => .error "Group not found"
    | some densChildren =>
      match g.rate with
      | none => .error "Group not found"
      | some rateChildren =>
        .ok
          { species := (readGroup densChildren).1
            reactions := (readGroup rateChildren).1
            conditions := (g.condition.map (fun c => (readGroup c).1)).getD []
            t := tArr
            sourceMatrix := g.source_matrix.getD []
            density := fun k => List.lookup k (readGroup densChildren).2
            rate := fun k => List.lookup k (readGroup rateChildren).2
            condition := fun k =>
              List.lookup k ((g.condition.map (fun c => (readGroup c).2)).getD []) }

/-- `HDF5Data.fromFile` including `_load`'s I/O prologue (dynamic import
of the HDF5 library, `file.arrayBuffer()`, the in-memory file system
write): an `Except.error` input models any of those failing before
parsing starts. -/
def h5Load (readResult : Except String H5File) : Except String ModelData :=
  match readResult with
  | .error e => .error e
  | .ok f => parseH5 f

-- ---------------------------------------------------------------
-- `filterRates` from js/app.js
-- ---------------------------------------------------------------

/-- `filterRates(weightedMap, ids, delta, maxRates = 8, minRates = 1)`:
normalise each reaction's peak contribution by the global peak, sort
descending (stable), then select by rank. -/
def filterRates (weightedMap : ℕ → List JSNum) (ids : List ℕ) (delta : JSNum)
    (maxRates : ℕ := 8) (minRates : ℕ := 1) : List ℕ :=
  if ids = [] then []
  else
    let maxVal := ids.map (fun id => jsMaxList (weightedMap id))
    let globalMax := jsMaxList maxVal
    if globalMax = JSNum.num 0 then []
    else
      let normMax := maxVal.map (fun v => JSNum.jsDiv v globalMax)
      let sorted := sortCmp (fun a b => JSNum.jsGtB a.2 b.2) (ids.zip normMax)
      sorted.enum.filterMap (fun p =>
        if p.1 < minRates then some p.2.1
        else if p.1 < maxRates then
          (if delta = JSNum.num 0 ∨ JSNum.jsGtB p.2.2 delta then some p.2.1 else none)
        else
          (if JSNum.jsGtB delta (JSNum.num 0) ∧
              JSNum.jsGtB p.2.2 (JSNum.jsSub (JSNum.num 1) delta)
           then some p.2.1 else none))

/-- Peak of a rational series: maximum of its entries (0 for the empty
series, which the claims exclude by hypothesis). -/
def qpeak : List ℚ → ℚ
  | [] => 0
  | x :: xs => xs.foldl max x

-- ---------------------------------------------------------------
-- Generic lemmas about the stable insertion sort
-- ---------------------------------------------------------------

theorem insertCmp_perm (lt : α → α → Bool) (x : α) (l : List α) :
    (insertCmp lt x l).Perm (x :: l) := by
  induction l with
  | nil => exact List.Perm.refl _
  | cons y ys ih =>
    simp only [insertCmp]
    split
    · exact List.Perm.refl _
    · exact (ih.cons y).trans (List.Perm.swap x y ys)

theorem sortCmpGo_perm (lt : α → α → Bool) (l acc : List α) :
    (sortCmpGo lt l acc).Perm (l ++ acc) := by
  induction l generalizing acc with
  | nil => exact List.Perm.refl _
  | cons x xs ih =>
    refine (ih (insertCmp lt x acc)).trans ?_
    refine (List.Perm.append_left xs (insertCmp_perm lt x acc)).trans ?_
    exact List.perm_middle

theorem sortCmp_perm (lt : α → α → Bool) (l : List α) : (sortCmp lt l).Perm l := by
  simpa using sortCmpGo_perm lt l []

theorem insertCmp_pairwise (lt : α → α → Bool)
    (hasym : ∀ a b, lt a b = true → lt b a = false)
    (htrans : ∀ a b c, lt a b = true → lt b c = true → lt a c = true)
    (x : α) (l : List α) (hl : l.Pairwise (fun a b => lt b a = false)) :
    (insertCmp lt x l).Pairwise (fun a b => lt b a = false) := by
  induction l with
  | nil => simp [insertCmp]
  | cons y ys ih =>
    rcases List.pairwise_cons.mp hl with ⟨hy, hys⟩
    simp only [insertCmp]
    split
    next hxy =>
      refine List.pairwise_cons.mpr ⟨?_, hl⟩
      intro z hz
      rcases List.mem_cons.mp hz with rfl | hz
      · exact hasym _ _ hxy
      · by_contra hzx
        have hzx' : lt z x = true := by
          cases h : lt z x with
          | true => rfl
          | false => exact absurd h hzx
        have : lt z y = true := htrans z x y hzx' hxy
        rw [hy z hz] at this
        exact Bool.noConfusion this
    next hxy =>
      refine List.pairwise_cons.mpr ⟨?_, ih hys⟩
      intro z hz
      rcases List.mem_cons.mp ((insertCmp_perm lt x ys).mem_iff.mp hz) with rfl | hz2
      · cases h2 : lt z y with
        | true => exact absurd h2 hxy
        | false => rfl
      · exact hy z hz2

theorem sortCmpGo_pairwise (lt : α → α → Bool)
    (hasym : ∀ a b, lt a b = true → lt b a = false)
    (htrans : ∀ a b c, lt a b = true → lt b c = true → lt a c = true)
    (l acc : List α) (hacc : acc.Pairwise (fun a b => lt b a = false)) :
    (sortCmpGo lt l acc).Pairwise (fun a b => lt b a = false) := by
  induction l generalizing acc with
  | nil => exact hacc
  | cons x xs ih => exact ih _ (insertCmp_pairwise lt hasym htrans x acc hacc)

theorem sortCmp_pairwise (lt : α → α → Bool)
    (hasym : ∀ a b, lt a b = true → lt b a = false)
    (htrans : ∀ a b c, lt a b = true → lt b c = true → lt a c = true)
    (l : List α) :
    (sortCmp lt l).Pairwise (fun a b => lt b a = false) :=
  sortCmpGo_pairwise lt hasym htrans l [] (List.Pairwise.nil)

theorem insertCmp_map (lt : α → α → Bool) (lt2 : β → β → Bool) (f : α → β)
    (h : ∀ a b, lt2 (f a) (f b) = lt a b) (x : α) (l : List α) :
    insertCmp lt2 (f x) (l.map f) = (insertCmp lt x l).map f := by
  induction l with
  | nil => rfl
  | cons y ys ih =>
    simp only [List.map_cons, insertCmp, h]
    split
    · rfl
    · simp [ih]

theorem sortCmpGo_map (lt : α → α → Bool) (lt2 : β → β → Bool) (f : α → β)
    (h : ∀ a b, lt2 (f a) (f b) = lt a b) (l acc : List α) :
    sortCmpGo lt2 (l.map f) (acc.map f) = (sortCmpGo lt l acc).map f := by
  induction l generalizing acc with
  | nil => rfl
  | cons x xs ih =>
    simp only [List.map_cons, sortCmpGo]
    rw [insertCmp_map lt lt2 f h, ih]

theorem sortCmp_map (lt : α → α → Bool) (lt2 : β → β → Bool) (f : α → β)
    (h : ∀ a b, lt2 (f a) (f b) = lt a b) (l : List α) :
    sortCmp lt2 (l.map f) = (sortCmp lt l).map f := by
  simpa using sortCmpGo_map lt lt2 f h l []

-- ---------------------------------------------------------------
-- Concrete sample data for witnesses
-- ---------------------------------------------------------------

/-- A minimal concrete dataset (no matrix, no series). -/
def mdEmpty : ModelData where
  species := []
  reactions := []
  conditions := []
  t := []
  sourceMatrix := []
  density := fun _ => none
  rate := fun _ => none
  condition := fun _ => none

/-- A one-species, one-reaction dataset with stoichiometric coefficient 1
and rate series `[2]`. -/
def mdOne : ModelData where
  species := [['a']]
  reactions := [['r']]
  conditions := []
  t := [JSNum.num 0]
  sourceMatrix := [[JSNum.num 1]]
  density := fun _ => none
  rate := fun k => if k = 1 then some [JSNum.num 2] else none
  condition := fun _ => none

/-- A file set with every file absent. -/
def filesNone : DirFiles := ⟨none, none, none, none, none, none, none⟩

-- ---------------------------------------------------------------
-- C6
-- ---------------------------------------------------------------

/-- C6: when the stoichiometric matrix is empty/absent, or the species
index falls outside its row range (including 0 and negative indices),
`sources` returns the empty mapping; being a total Lean function, it
raises no error. -/
theorem sources_out_of_range (d : ModelData) (s : ℤ)
    (h : d.sourceMatrix = [] ∨ s ≤ 0 ∨ (d.sourceMatrix.length : ℤ) ≤ s - 1) :
    d.sources s = [] := by
  have hnone : listGetI d.sourceMatrix (s - 1) = none := by
    rcases h with h | h | h
    · simp [listGetI, h]
    · have hneg : s - 1 < 0 := by omega
      simp [listGetI, hneg]
    · by_cases hneg : s - 1 < 0
      · simp [listGetI, hneg]
      · have hlen : d.sourceMatrix.length ≤ (s - 1).toNat := by omega
        unfold listGetI
        rw [if_neg hneg, List.getElem?_eq_none hlen]
  unfold ModelData.sources
  rw [hnone]

/-- Witness for C6 at a concrete dataset and index 0. -/
theorem sources_out_of_range_witness : mdEmpty.sources 0 = [] :=
  sources_out_of_range mdEmpty 0 (Or.inl rfl)

-- ---------------------------------------------------------------
-- C1
-- ---------------------------------------------------------------

/-- C1: over a dataset whose stoichiometric matrix rows all have the
reaction-list length (the data-model shape invariant), `sources s`
contains the pair `(r, ys)` exactly when `r` lies in `[1, len(reactions)]`,
the coefficient at `(s-1, r-1)` exists and is nonzero, and the rate series
`rate(r)` exists; and then `ys` is the pointwise product of `rate(r)` with
that coefficient. -/
theorem sources_spec (d : ModelData) (s : ℤ)
    (hwf : ∀ row ∈ d.sourceMatrix, row.length = d.reactions.length)
    (r : ℕ) (ys : List JSNum) :
    (r, ys) ∈ d.sources s ↔
      ∃ row c rt, listGetI d.sourceMatrix (s - 1) = some row ∧
        1 ≤ r ∧ r ≤ d.reactions.length ∧
        row[r - 1]? = some c ∧ c ≠ JSNum.num 0 ∧
        d.rate r = some rt ∧ ys = rt.map (fun v => JSNum.jsMul v c) := by
  unfold ModelData.sources
  cases hrow : listGetI d.sourceMatrix (s - 1) with
  | none => simp
  | some row =>
    have hmem : row ∈ d.sourceMatrix := by
      unfold listGetI at hrow
      by_cases hneg : s - 1 < 0
      · simp [hneg] at hrow
      · simp only [hneg, if_false] at hrow
        rcases List.getElem?_eq_some.mp hrow with ⟨hlt, he⟩
        exact he ▸ List.getElem_mem hlt
    have hlen : row.length = d.reactions.length := hwf row hmem
    constructor
    · intro hm
      rcases List.mem_filterMap.mp hm with ⟨rIdx, hr, hf⟩
      have hrIdx : rIdx < d.reactions.length := List.mem_range.mp hr
      have hlt : rIdx < row.length := by omega
      have hc : row[rIdx]? = some row[rIdx] := List.getElem?_eq_some.mpr ⟨hlt, rfl⟩
      obtain ⟨c, hc⟩ : ∃ c, row[rIdx]? = some c := ⟨row[rIdx], hc⟩
      simp only [hc] at hf
      by_cases hc0 : c = JSNum.num 0
      · rw [if_pos (by rw [hc0])] at hf
        exact absurd hf (by simp)
      · rw [if_neg (fun hcontra => hc0 (Option.some.inj hcontra))] at hf
        cases hrate : d.rate (rIdx + 1) with
        | none =>
          rw [hrate] at hf
          exact absurd hf (by simp)
        | some rt =>
          rw [hrate] at hf
          simp only [Option.getD_some, Option.some.injEq, Prod.mk.injEq] at hf
          rcases hf with ⟨hfr, hfy⟩
          refine ⟨row, c, rt, rfl, by omega, by omega, ?_, hc0, ?_, ?_⟩
          · rw [← hfr]
            simpa using hc
          · rw [← hfr]; exact hrate
          · rw [← hfy]
    · rintro ⟨row', c, rt, hrow', h1, h2, hcell, hc0, hrate, hys⟩
      injection hrow' with hrow''
      subst hrow''
      refine List.mem_filterMap.mpr ⟨r - 1, List.mem_range.mpr (by omega), ?_⟩
      rw [hcell]
      have hc0' : ¬ (some c = some (JSNum.num 0)) := by simp [hc0]
      rw [if_neg hc0']
      have hr1 : r - 1 + 1 = r := by omega
      rw [hr1, hrate]
      simp [hys]

/-- Witness for C1: the single production reaction of the one-reaction
dataset appears with series `rate * 1 = [2]`. -/
theorem sources_spec_witness : (1, [JSNum.num 2]) ∈ mdOne.sources 1 :=
  (sources_spec mdOne 1 (by decide) 1 [JSNum.num 2]).mpr
    ⟨[JSNum.num 1], JSNum.num 1, [JSNum.num 2], by with_unfolding_all rfl,
     by decide, by decide, by with_unfolding_all rfl,
     by with_unfolding_all decide, rfl, by with_unfolding_all decide⟩

-- ---------------------------------------------------------------
-- C4
-- ---------------------------------------------------------------

/-- C4: whenever a load fails with a fatal error — a missing mandatory
text file, a failed read (I/O error) on either path, a structural error
or missing required group of the hierarchical format, or a failed HDF5
library import — the previously active dataset reference is returned
unchanged: the module-level `data` reference is reassigned only after
the whole load, reads and parses included, has succeeded. -/
theorem load_failure_preserves_data (prev : Option ModelData) :
    (∀ (reads : Except String DirFiles) (e : String),
      dirLoadResult reads = .error e → appLoad prev (dirLoadResult reads) = prev) ∧
    (∀ (readResult : Except String H5File) (e : String),
      h5Load readResult = .error e → appLoad prev (h5Load readResult) = prev) := by
  constructor
  · intro reads e h
    unfold appLoad
    rw [h]
  · intro readResult e h
    unfold appLoad
    rw [h]

/-- Witness for C4: a directory load with every file missing, a
structurally empty HDF5 file, and a failed HDF5 read all leave the
previous dataset in place. -/
theorem load_failure_preserves_data_witness :
    appLoad (some mdEmpty) (dirLoadResult (.ok filesNone)) = some mdEmpty ∧
    appLoad (some mdEmpty) (h5Load (.ok ⟨none, none⟩)) = some mdEmpty ∧
    appLoad (some mdEmpty)
      (dirLoadResult (.error "Failed to read qt_densities.txt")) = some mdEmpty :=
  ⟨(load_failure_preserves_data (some mdEmpty)).1 (.ok filesNone)
      "Species list file not found" rfl,
   (load_failure_preserves_data (some mdEmpty)).2 (.ok ⟨none, none⟩)
      "Unrecognised HDF5 structure (expected main/ or zdplaskin/ group)" rfl,
   (load_failure_preserves_data (some mdEmpty)).1
      (.error "Failed to read qt_densities.txt")
      "Failed to read qt_densities.txt" rfl⟩

-- ---------------------------------------------------------------
-- Helper lemmas about the data-file parser
-- ---------------------------------------------------------------

theorem splitWSAux_fst_ne_nil (l : List Char) : (splitWSAux l).1 ≠ [] := by
  induction l with
  | nil => simp [splitWSAux]
  | cons c cs ih =>
    simp only [splitWSAux]
    split
    · split
      · exact ih
      · simp
    · cases h : (splitWSAux cs).1 with
      | nil => exact absurd h ih
      | cons g gs => simp [h]

theorem splitWS_ne_nil (l : List Char) : splitWS l ≠ [] := splitWSAux_fst_ne_nil l

theorem parseDataFile_t (text : List Char) :
    (parseDataFile text).t = (dataRows text).map Prod.fst := by
  unfold parseDataFile
  cases h : dataRows text with
  | nil => simp
  | cons r rs => simp

theorem parseDataFile_cols_of_rows (text : List Char) (r : JSNum × List JSNum)
    (rows' : List (JSNum × List JSNum)) (h : dataRows text = r :: rows') :
    (parseDataFile text).cols = (List.range r.2.length).map (fun j =>
      (dataRows text).map (fun row => row.2.getD j (JSNum.num 0))) := by
  unfold parseDataFile
  rw [h]

theorem parseDataFile_col_length (text : List Char) (c : List JSNum)
    (hmem : c ∈ (parseDataFile text).cols) :
    c.length = (parseDataFile text).t.length := by
  rw [parseDataFile_t]
  unfold parseDataFile at hmem
  cases h : dataRows text with
  | nil => rw [h] at hmem; simp at hmem
  | cons r rs =>
    rw [h] at hmem
    simp only [List.mem_map, List.mem_range] at hmem
    rcases hmem with ⟨j, _, rfl⟩
    simp [h]

-- ---------------------------------------------------------------
-- C3
-- ---------------------------------------------------------------

/-- Counterexample to C3 as stated: the data row `"1 abc"` contains the
malformed numeric token `"abc"`, yet the row is NOT dropped — its time
value enters `t` and it contributes a NaN sample to column 1. -/
theorem malformed_token_row_kept :
    parseDataFile ("h\n1 abc").data = ⟨[JSNum.num 1], [[JSNum.nan]]⟩ := by
  with_unfolding_all decide

/-- C3 amended: a data row is dropped exactly when it is blank or its
FIRST (time) token fails to parse; malformed tokens in later positions do
not cause the row to be dropped (they are kept as NaN samples), and the
time column consists precisely of the accepted rows' time values. -/
theorem data_row_dropped_iff (text : List Char) :
    (parseDataFile text).t
      = ((splitLines (jsTrim text)).drop 1).filterMap
          (fun ln => (dataRow ln).map Prod.fst)
    ∧ ∀ ln : List Char, jsTrim ln ≠ [] →
        (dataRow ln = none ↔
          (jsNumber ((splitWS (jsTrim ln)).headI)).isNaN = true) := by
  constructor
  · rw [parseDataFile_t]
    unfold dataRows
    rw [List.map_filterMap]
  · intro ln hne
    unfold dataRow
    rw [if_neg hne]
    cases hsp : splitWS (jsTrim ln) with
    | nil => exact absurd hsp (splitWS_ne_nil _)
    | cons t0 ts =>
      simp only [List.map_cons, List.headI]
      by_cases hna : (jsNumber t0).isNaN = true
      · simp [hna]
      · simp [hna]

/-- Witness for the amended C3 at the concrete row `"x abc"` (malformed
first token). -/
theorem data_row_dropped_iff_witness :
    dataRow ("x 1").data = none ↔
      (jsNumber ((splitWS (jsTrim ("x 1").data)).headI)).isNaN = true :=
  (data_row_dropped_iff ("h").data).2 ("x 1").data (by with_unfolding_all decide)

-- ---------------------------------------------------------------
-- C9
-- ---------------------------------------------------------------

/-- C9: a data row whose time token parses but which has fewer value
tokens than the column count (fixed by the first accepted row) is kept —
its time value enters `t` — and each missing trailing column reads as
zero at that row's sample. -/
theorem short_row_zero_filled (text : List Char) (i j : ℕ) (r : JSNum × List JSNum)
    (hrow : (dataRows text)[i]? = some r)
    (hj : j < (parseDataFile text).cols.length)
    (hshort : r.2.length ≤ j) :
    (parseDataFile text).t[i]? = some r.1 ∧
    ((parseDataFile text).cols[j]?.bind (fun col => col[i]?)) = some (JSNum.num 0) := by
  cases hrows : dataRows text with
  | nil => rw [hrows] at hrow; simp at hrow
  | cons r0 rows' =>
    have hcols := parseDataFile_cols_of_rows text r0 rows' hrows
    constructor
    · rw [parseDataFile_t, List.getElem?_map, hrow]
      rfl
    · rw [hcols] at hj ⊢
      simp only [List.length_map, List.length_range] at hj
      rw [List.getElem?_map, List.getElem?_range hj]
      simp only [Option.map_some', Option.some_bind]
      rw [List.getElem?_map, hrow]
      simp only [Option.map_some', Option.some.injEq]
      rw [List.getD_eq_getElem?_getD, List.getElem?_eq_none hshort]
      rfl

/-- Witness for C9: in `"h\n0 1 2\n1 5"` the second row is short; its
column-1 sample reads as zero and its time value 1 is kept. -/
theorem short_row_zero_filled_witness :
    (parseDataFile ("h\n0 1 2\n1 5").data).t[1]? = some (JSNum.num 1) ∧
    ((parseDataFile ("h\n0 1 2\n1 5").data).cols[1]?.bind (fun col => col[1]?))
      = some (JSNum.num 0) :=
  short_row_zero_filled ("h\n0 1 2\n1 5").data 1 1 (JSNum.num 1, [JSNum.num 5])
    (by with_unfolding_all decide) (by with_unfolding_all decide)
    (by decide)

-- ---------------------------------------------------------------
-- Helper lemmas about successful text loads
-- ---------------------------------------------------------------

theorem dirLoad_ok_elim (files : DirFiles) (d : ModelData)
    (hok : dirLoad files = .ok d) : d = dirModel files := by
  unfold dirLoad at hok
  by_cases hsp : jsTextFalsy files.speciesText = true
  · rw [if_pos hsp] at hok
    exact absurd hok (by simp)
  · rw [if_neg hsp] at hok
    by_cases hde : jsTextFalsy files.densitiesText = true
    · rw [if_pos hde] at hok
      exact absurd hok (by simp)
    · rw [if_neg hde] at hok
      simp only [Except.ok.injEq] at hok
      exact hok.symm

theorem dirModel_density (files : DirFiles) (k : ℕ) :
    (dirModel files).density k =
      (if 1 ≤ k ∧ k ≤ (dirModel files).species.length then
        some ((parseDataFile (files.densitiesText.getD [])).cols.getD (k - 1)
          (List.replicate (dirModel files).t.length (JSNum.num 0)))
      else none) := rfl

theorem dirModel_rate (files : DirFiles) (k : ℕ) :
    (dirModel files).rate k =
      (if jsTextFalsy files.ratesText then none
       else if 1 ≤ k ∧ k ≤ (dirModel files).reactions.length then
         some ((parseDataFile (files.ratesText.getD [])).cols.getD (k - 1)
           (List.replicate (dirModel files).t.length (JSNum.num 0)))
       else none) := rfl

theorem dirModel_condition (files : DirFiles) (k : ℕ) :
    (dirModel files).condition k =
      (if jsTextFalsy files.conditionsDataText then none
       else if 1 ≤ k ∧ k ≤ (dirModel files).conditions.length then
         some ((parseDataFile (files.conditionsDataText.getD [])).cols.getD (k - 1)
           (List.replicate (dirModel files).t.length (JSNum.num 0)))
       else none) := rfl

theorem getD_replicate_of_short (cols : List (List JSNum)) (n j : ℕ)
    (h : cols.length ≤ j) :
    cols.getD j (List.replicate n (JSNum.num 0)) = List.replicate n (JSNum.num 0) := by
  rw [List.getD_eq_getElem?_getD, List.getElem?_eq_none h]
  rfl

theorem parseDataFile_getD_length (text : List Char) (n j : ℕ)
    (hn : (parseDataFile text).t.length = n) :
    ((parseDataFile text).cols.getD j (List.replicate n (JSNum.num 0))).length = n := by
  rw [List.getD_eq_getElem?_getD]
  cases hcol : (parseDataFile text).cols[j]? with
  | none => simp
  | some c =>
    have hmem : c ∈ (parseDataFile text).cols := by
      rcases List.getElem?_eq_some.mp hcol with ⟨hlt, he⟩
      exact he ▸ List.getElem_mem hlt
    simp only [Option.getD_some]
    rw [parseDataFile_col_length text c hmem, hn]

-- ---------------------------------------------------------------
-- C10
-- ---------------------------------------------------------------

/-- C10: the first accepted data row fixes the per-entity column count:
columns beyond it do not exist at all (extra value tokens of later,
longer rows are discarded), and in the text loader every entity index of
any of the three loops — species/densities, reactions/rates,
conditions/conditions-data — beyond that count receives the all-zero
series of length `len(t)`. -/
theorem first_row_fixes_width :
    (∀ (text : List Char) (r : JSNum × List JSNum) (rows2 : List (JSNum × List JSNum)),
      dataRows text = r :: rows2 →
        (parseDataFile text).cols.length = r.2.length ∧
        ∀ j, r.2.length ≤ j → (parseDataFile text).cols[j]? = none) ∧
    (∀ (files : DirFiles) (dtxt : List Char) (d : ModelData) (k : ℕ),
      files.densitiesText = some dtxt → dirLoad files = .ok d →
      1 ≤ k → k ≤ d.species.length → (parseDataFile dtxt).cols.length ≤ k - 1 →
        d.density k = some (List.replicate d.t.length (JSNum.num 0))) ∧
    (∀ (files : DirFiles) (rtxt : List Char) (d : ModelData) (k : ℕ),
      files.ratesText = some rtxt → rtxt ≠ [] → dirLoad files = .ok d →
      1 ≤ k → k ≤ d.reactions.length → (parseDataFile rtxt).cols.length ≤ k - 1 →
        d.rate k = some (List.replicate d.t.length (JSNum.num 0))) ∧
    (∀ (files : DirFiles) (ctxt : List Char) (d : ModelData) (k : ℕ),
      files.conditionsDataText = some ctxt → ctxt ≠ [] → dirLoad files = .ok d →
      1 ≤ k → k ≤ d.conditions.length → (parseDataFile ctxt).cols.length ≤ k - 1 →
        d.condition k = some (List.replicate d.t.length (JSNum.num 0))) := by
  refine ⟨?_, ?_, ?_, ?_⟩
  · intro text r rows2 h
    have hcols := parseDataFile_cols_of_rows text r rows2 h
    have hlen : (parseDataFile text).cols.length = r.2.length := by
      rw [hcols]; simp
    refine ⟨hlen, fun j hj => ?_⟩
    exact List.getElem?_eq_none (by omega)
  · intro files dtxt d k hdt hok h1 h2 hw
    have hd := dirLoad_ok_elim files d hok
    subst hd
    rw [dirModel_density files k, if_pos ⟨h1, h2⟩, hdt]
    simp only [Option.getD_some]
    rw [getD_replicate_of_short _ _ _ hw]
  · intro files rtxt d k hrt hne hok h1 h2 hw
    have hd := dirLoad_ok_elim files d hok
    subst hd
    have hfalsy : jsTextFalsy files.ratesText = false := by
      rw [hrt]
      cases rtxt with
      | nil => exact absurd rfl hne
      | cons a l => rfl
    rw [dirModel_rate files k, if_neg (by rw [hfalsy]; exact Bool.false_ne_true),
      if_pos ⟨h1, h2⟩, hrt]
    simp only [Option.getD_some]
    rw [getD_replicate_of_short _ _ _ hw]
  · intro files ctxt d k hct hne hok h1 h2 hw
    have hd := dirLoad_ok_elim files d hok
    subst hd
    have hfalsy : jsTextFalsy files.conditionsDataText = false := by
      rw [hct]
      cases ctxt with
      | nil => exact absurd rfl hne
      | cons a l => rfl
    rw [dirModel_condition files k, if_neg (by rw [hfalsy]; exact Bool.false_ne_true),
      if_pos ⟨h1, h2⟩, hct]
    simp only [Option.getD_some]
    rw [getD_replicate_of_short _ _ _ hw]

/-- Files whose densities and rates files both have first-row width 1
while their label lists have two entries. -/
def filesFallback : DirFiles :=
  ⟨some ("1 a\n2 b").data, some ("1 r\n2 s").data, none,
   some ("h\n0 1\n1 2 3").data, some ("h\n0 7").data, none, none⟩

/-- The dataset loaded from `filesFallback`. -/
def mdFallback : ModelData := (dirLoad filesFallback).toOption.getD mdEmpty

/-- Witness for C10: densities file `"h\n0 1\n1 2 3"` has first-row width
1, so column 2 does not exist (the `3` of the longer second row is
discarded), species 2 gets the zero series of length `len(t)`, and in
the same load reaction 2 gets the zero series from the rates loop. -/
theorem first_row_fixes_width_witness :
    ((parseDataFile ("h\n0 1\n1 2 3").data).cols.length = 1 ∧
      ∀ j, 1 ≤ j → (parseDataFile ("h\n0 1\n1 2 3").data).cols[j]? = none) ∧
    mdFallback.density 2 = some (List.replicate mdFallback.t.length (JSNum.num 0)) ∧
    mdFallback.rate 2 = some (List.replicate mdFallback.t.length (JSNum.num 0)) :=
  ⟨by
    have h := first_row_fixes_width.1 ("h\n0 1\n1 2 3").data
      (JSNum.num 0, [JSNum.num 1]) [(JSNum.num 1, [JSNum.num 2, JSNum.num 3])]
      (by with_unfolding_all decide)
    simpa using h,
   first_row_fixes_width.2.1 filesFallback ("h\n0 1\n1 2 3").data mdFallback 2
     rfl (by with_unfolding_all rfl) (by decide)
     (by with_unfolding_all decide) (by with_unfolding_all decide),
   first_row_fixes_width.2.2.1 filesFallback ("h\n0 7").data mdFallback 2
     rfl (by decide) (by with_unfolding_all rfl) (by decide)
     (by with_unfolding_all decide) (by with_unfolding_all decide)⟩

-- ---------------------------------------------------------------
-- C5
-- ---------------------------------------------------------------

/-- A text-file set whose rates file has two data rows while the
densities file has one. -/
def filesMismatch : DirFiles :=
  ⟨some ("1 a").data, some ("1 r").data, none,
   some ("h\n0 1").data, some ("h\n0 1\n1 2").data, none, none⟩

/-- Counterexample to C5 as stated: the load succeeds, yet the rate
series for reaction 1 has length 2 while `t` has length 1, because the
rate columns take their length from the rates file's own row count. -/
theorem series_length_mismatch :
    ((dirLoad filesMismatch).toOption.bind (fun d => d.rate 1)).map List.length
      = some 2 ∧
    ((dirLoad filesMismatch).toOption.map (fun d => d.t.length)) = some 1 := by
  with_unfolding_all decide

/-- C5 amended (text loader): a density series always has length
`len(t)`; a rate (resp. condition) series has length `len(t)` provided
its data file yields the same number of accepted rows as the densities
file — the zero-fallback series always do. -/
theorem series_lengths (files : DirFiles) (dtxt : List Char) (d : ModelData)
    (hdt : files.densitiesText = some dtxt) (hok : dirLoad files = .ok d)
    (k : ℕ) (arr : List JSNum) :
    (d.density k = some arr → arr.length = d.t.length)
    ∧ ((∀ rtxt, files.ratesText = some rtxt →
          (parseDataFile rtxt).t.length = (parseDataFile dtxt).t.length) →
        d.rate k = some arr → arr.length = d.t.length)
    ∧ ((∀ ctxt, files.conditionsDataText = some ctxt →
          (parseDataFile ctxt).t.length = (parseDataFile dtxt).t.length) →
        d.condition k = some arr → arr.length = d.t.length) := by
  have hd := dirLoad_ok_elim files d hok
  subst hd
  have htlen : (parseDataFile (files.densitiesText.getD [])).t.length
      = (dirModel files).t.length := rfl
  refine ⟨?_, ?_, ?_⟩
  · intro h
    rw [dirModel_density files k] at h
    by_cases hk : 1 ≤ k ∧ k ≤ (dirModel files).species.length
    · rw [if_pos hk] at h
      have := parseDataFile_getD_length (files.densitiesText.getD [])
        (dirModel files).t.length (k - 1) htlen
      rw [Option.some.inj h] at this
      exact this
    · rw [if_neg hk] at h
      exact absurd h (by simp)
  · intro halign h
    rw [dirModel_rate files k] at h
    by_cases hfalsy : jsTextFalsy files.ratesText = true
    · rw [if_pos hfalsy] at h
      exact absurd h (by simp)
    · rw [if_neg hfalsy] at h
      by_cases hk : 1 ≤ k ∧ k ≤ (dirModel files).reactions.length
      · rw [if_pos hk] at h
        cases hrt : files.ratesText with
        | none =>
          rw [hrt] at hfalsy
          exact absurd rfl hfalsy
        | some rtxt =>
          rw [hrt] at h
          simp only [Option.getD_some] at h
          have hn : (parseDataFile rtxt).t.length = (dirModel files).t.length := by
            rw [← htlen, hdt]
            simp only [Option.getD_some]
            exact halign rtxt hrt
          have := parseDataFile_getD_length rtxt (dirModel files).t.length (k - 1) hn
          rw [Option.some.inj h] at this
          exact this
      · rw [if_neg hk] at h
        exact absurd h (by simp)
  · intro halign h
    rw [dirModel_condition files k] at h
    by_cases hfalsy : jsTextFalsy files.conditionsDataText = true
    · rw [if_pos hfalsy] at h
      exact absurd h (by simp)
    · rw [if_neg hfalsy] at h
      by_cases hk : 1 ≤ k ∧ k ≤ (dirModel files).conditions.length
      · rw [if_pos hk] at h
        cases hct : files.conditionsDataText with
        | none =>
          rw [hct] at hfalsy
          exact absurd rfl hfalsy
        | some ctxt =>
          rw [hct] at h
          simp only [Option.getD_some] at h
          have hn : (parseDataFile ctxt).t.length = (dirModel files).t.length := by
            rw [← htlen, hdt]
            simp only [Option.getD_some]
            exact halign ctxt hct
          have := parseDataFile_getD_length ctxt (dirModel files).t.length (k - 1) hn
          rw [Option.some.inj h] at this
          exact this
      · rw [if_neg hk] at h
        exact absurd h (by simp)

/-- A text-file set whose rates file row count matches the densities
file. -/
def filesAligned : DirFiles :=
  ⟨some ("1 a").data, some ("1 r").data, none,
   some ("h\n0 1").data, some ("h\n0 5").data, none, none⟩

/-- The dataset loaded from `filesAligned`. -/
def mdAligned : ModelData := (dirLoad filesAligned).toOption.getD mdEmpty

/-- Witness for the amended C5: in the aligned file set, the density
series of species 1 has the length of `t` (by the unconditional density
part). -/
theorem series_lengths_witness :
    ([JSNum.num 1] : List JSNum).length = mdAligned.t.length :=
  (series_lengths filesAligned ("h\n0 1").data mdAligned rfl
    (by with_unfolding_all rfl) 1 [JSNum.num 1]).1
    (by with_unfolding_all rfl)

-- ---------------------------------------------------------------
-- Helper lemmas about trimming and index stripping
-- ---------------------------------------------------------------

theorem takeWhile_all_append (p : Char → Bool) (l r : List Char)
    (hl : ∀ c ∈ l, p c = true)
    (hr : ∀ x, r.head? = some x → p x = false) :
    (l ++ r).takeWhile p = l ∧ (l ++ r).dropWhile p = r := by
  induction l with
  | nil =>
    simp only [List.nil_append]
    cases r with
    | nil => exact ⟨rfl, rfl⟩
    | cons x xs =>
      have hx : ¬ p x = true := by simp [hr x rfl]
      exact ⟨List.takeWhile_cons_of_neg hx, List.dropWhile_cons_of_neg hx⟩
  | cons c cs ih =>
    have hc : p c = true := hl c (List.mem_cons_self c cs)
    have ih2 := ih (fun d hd => hl d (List.mem_cons_of_mem c hd))
    simp only [List.cons_append, List.takeWhile_cons_of_pos hc,
      List.dropWhile_cons_of_pos hc]
    exact ⟨by rw [ih2.1], ih2.2⟩

theorem ws_not_digit {c : Char} (h : c.isWhitespace = true) : c.isDigit = false := by
  simp only [Char.isWhitespace, Bool.or_eq_true, decide_eq_true_eq] at h
  rcases h with ((h | h) | h) | h <;> subst h <;> decide

theorem jsTrim_eq_self (l : List Char)
    (hh : ∀ x, l.head? = some x → x.isWhitespace = false)
    (hl : ∀ x, l.getLast? = some x → x.isWhitespace = false) :
    jsTrim l = l := by
  unfold jsTrim trimLeft
  have h1 : l.reverse.dropWhile Char.isWhitespace = l.reverse := by
    cases hrev : l.reverse with
    | nil => rfl
    | cons x xs =>
      have hx : x.isWhitespace = false := by
        apply hl
        rw [← List.head?_reverse, hrev]
        rfl
      exact List.dropWhile_cons_of_neg (by simp [hx])
  rw [h1, List.reverse_reverse]
  cases hc : l with
  | nil => rfl
  | cons x xs =>
    have hx : x.isWhitespace = false := by
      apply hh
      rw [hc]
      rfl
    exact List.dropWhile_cons_of_neg (by simp [hx])

theorem stripIndex_decomp (ds ws rest : List Char)
    (hds : ds ≠ []) (hdsd : ∀ c ∈ ds, c.isDigit = true)
    (hws : ws ≠ []) (hwsw : ∀ c ∈ ws, c.isWhitespace = true)
    (hrh : ∀ x, rest.head? = some x → x.isWhitespace = false)
    (hrl : ∀ x, rest.getLast? = some x → x.isWhitespace = false) :
    stripIndex (ds ++ (ws ++ rest)) = rest := by
  have hwr : ∀ x, (ws ++ rest).head? = some x → Char.isDigit x = false := by
    intro x hx
    cases ws with
    | nil => exact absurd rfl hws
    | cons w ws' =>
      have : w = x := by
        simpa using hx
      subst this
      exact ws_not_digit (hwsw w (List.mem_cons_self w ws'))
  have htd := takeWhile_all_append Char.isDigit ds (ws ++ rest) hdsd hwr
  have htw := takeWhile_all_append Char.isWhitespace ws rest hwsw hrh
  unfold stripIndex
  rw [htd.1, htd.2, if_neg hds]
  cases hw : ws with
  | nil => exact absurd hw hws
  | cons w ws' =>
    subst hw
    simp only [List.cons_append]
    have hwt : w.isWhitespace = true := hwsw w (List.mem_cons_self w ws')
    rw [if_pos hwt]
    have : ((w :: ws') ++ rest).dropWhile Char.isWhitespace = rest := htw.2
    rw [List.cons_append] at this
    rw [this]
    exact jsTrim_eq_self rest hrh hrl

-- ---------------------------------------------------------------
-- C8
-- ---------------------------------------------------------------

/-- C8: a non-blank list-file line of the form
`<digits><whitespace><label>` parses to exactly the label (everything
after the first whitespace run following the leading integer), whatever
the printed integer is, and its 1-based index is its position among the
file's non-blank lines. -/
theorem list_file_label (text : List Char) (i : ℕ) (ds ws rest : List Char)
    (hline : (((splitLines text).map jsTrim).filter (fun l => l ≠ []))[i]?
      = some (ds ++ (ws ++ rest)))
    (hds : ds ≠ []) (hdsd : ∀ c ∈ ds, c.isDigit = true)
    (hws : ws ≠ []) (hwsw : ∀ c ∈ ws, c.isWhitespace = true)
    (hrh : ∀ x, rest.head? = some x → x.isWhitespace = false)
    (hrl : ∀ x, rest.getLast? = some x → x.isWhitespace = false) :
    (parseListFile text)[i]? = some rest := by
  unfold parseListFile
  rw [List.getElem?_map, hline]
  simp only [Option.map_some', Option.some.injEq]
  exact stripIndex_decomp ds ws rest hds hdsd hws hwsw hrh hrl

/-- Witness for C8: the third non-blank line `"3   O(1D)"` yields label
`"O(1D)"` at position 3 (index 2 from 0). -/
theorem list_file_label_witness :
    (parseListFile ("1 e\n2 N2\n3   O(1D)").data)[2]? = some ("O(1D)").data :=
  list_file_label ("1 e\n2 N2\n3   O(1D)").data 2
    ("3").data ("   ").data ("O(1D)").data
    (by with_unfolding_all decide) (by decide) (by decide) (by decide)
    (by decide) (by decide) (by decide)

-- ---------------------------------------------------------------
-- Order lemmas for the JS comparisons
-- ---------------------------------------------------------------

theorem jsLtB_asymm (a b : JSNum) (h : JSNum.jsLtB a b = true) :
    JSNum.jsLtB b a = false := by
  cases a <;> cases b <;> simp_all [JSNum.jsLtB]
  exact le_of_lt h

theorem jsLtB_trans (a b c : JSNum) (h1 : JSNum.jsLtB a b = true)
    (h2 : JSNum.jsLtB b c = true) : JSNum.jsLtB a c = true := by
  cases a <;> cases b <;> cases c <;> simp_all [JSNum.jsLtB]
  exact lt_trans h1 h2

-- ---------------------------------------------------------------
-- Helper lemmas for `readGroup`
-- ---------------------------------------------------------------

theorem find?_key_unique (children : List H5Child) (c : H5Child)
    (hnd : (children.map (fun x => x.key)).Nodup) (hc : c ∈ children) :
    children.find? (fun x => x.key == c.key) = some c := by
  induction children with
  | nil => simp at hc
  | cons a rest ih =>
    rcases List.mem_cons.mp hc with rfl | hc2
    · exact List.find?_cons_of_pos _ (by simp)
    · have hnd' : (∀ x ∈ rest, ¬ x.key = a.key) ∧
          (List.map (fun x => x.key) rest).Nodup := by
        simpa using hnd
      have hne : ¬ (a.key == c.key) = true := by
        intro hk
        have heq : a.key = c.key := by simpa using hk
        exact hnd'.1 c hc2 heq.symm
      have hstep : List.find? (fun x => x.key == c.key) (a :: rest)
          = List.find? (fun x => x.key == c.key) rest :=
        List.find?_cons_of_neg rest hne
      rw [hstep]
      exact ih hnd'.2 hc2

theorem filterMap_id_of_some (f : H5Child → Option H5Child) (l : List H5Child)
    (h : ∀ a ∈ l, f a = some a) : l.filterMap f = l := by
  induction l with
  | nil => rfl
  | cons a rest ih =>
    rw [List.filterMap_cons_some (h a (List.mem_cons_self a rest)),
      ih (fun b hb => h b (List.mem_cons_of_mem a hb))]

theorem filterMap_find_map_key (children : List H5Child) (ks : List (List Char))
    (hfind : ∀ k ∈ ks, ∃ c, children.find? (fun x => x.key == k) = some c) :
    (ks.filterMap (fun k => children.find? (fun x => x.key == k))).map
      (fun c => c.key) = ks := by
  induction ks with
  | nil => rfl
  | cons k ks' ih =>
    rcases hfind k (List.mem_cons_self k ks') with ⟨c, hc⟩
    have hfm : (k :: ks').filterMap (fun k2 => children.find? (fun x => x.key == k2))
        = c :: ks'.filterMap (fun k2 => children.find? (fun x => x.key == k2)) :=
      List.filterMap_cons_some hc
    rw [hfm, List.map_cons]
    have hk : c.key = k := by
      have := List.find?_some hc
      simpa using this
    rw [hk, ih (fun k2 hk2 => hfind k2 (List.mem_cons_of_mem k hk2))]

theorem readGroup_foldl (children : List H5Child) (ks : List (List Char))
    (ns : List (List Char)) (dm : List (ℕ × List JSNum))
    (hfind : ∀ k ∈ ks, ∃ c, children.find? (fun x => x.key == k) = some c) :
    ks.foldl (fun acc key =>
      match children.find? (fun c => c.key == key) with
      | none => acc
      | some ds =>
        (acc.1 ++ [ds.name.getD ds.key], acc.2 ++ [(acc.1.length + 1, ds.value)])) (ns, dm)
    = (ns ++ (ks.filterMap (fun k => children.find? (fun x => x.key == k))).map
          (fun c => c.name.getD c.key),
       dm ++ ((ks.filterMap (fun k => children.find? (fun x => x.key == k))).enumFrom
          (ns.length + 1)).map (fun p => (p.1, p.2.value))) := by
  induction ks generalizing ns dm with
  | nil => simp
  | cons k ks' ih =>
    rcases hfind k (List.mem_cons_self k ks') with ⟨c, hc⟩
    simp only [List.foldl_cons, hc]
    rw [ih (ns ++ [c.name.getD c.key]) (dm ++ [(ns.length + 1, c.value)])
      (fun k2 hk2 => hfind k2 (List.mem_cons_of_mem k hk2))]
    have hfm : (k :: ks').filterMap (fun k2 => children.find? (fun x => x.key == k2))
        = c :: ks'.filterMap (fun k2 => children.find? (fun x => x.key == k2)) :=
      List.filterMap_cons_some hc
    rw [hfm]
    simp [List.enumFrom_cons, List.append_assoc, Nat.add_assoc]

-- ---------------------------------------------------------------
-- C7
-- ---------------------------------------------------------------

/-- C7: when the children of a sub-group carry numerically distinct
numeric keys, `readGroup` enumerates them in ascending numeric key order
— whatever the enumeration order and zero-padding width — assigning
sequential 1-based indices: the label list is the sorted children's
labels (`name` attribute, falling back to the key) and the data map pairs
index `i+1` with the `i`-th sorted child's values. -/
theorem readGroup_sorted (children : List H5Child)
    (hq : ∀ c ∈ children, ∃ q : ℚ, parseIntJS c.key = JSNum.num q)
    (hdist : children.Pairwise (fun a b => parseIntJS a.key ≠ parseIntJS b.key)) :
    ∃ cs : List H5Child, children.Perm cs ∧
      cs.Pairwise (fun a b =>
        JSNum.jsLtB (parseIntJS a.key) (parseIntJS b.key) = true) ∧
      (readGroup children).1 = cs.map (fun c => c.name.getD c.key) ∧
      (readGroup children).2 = (cs.enumFrom 1).map (fun p => (p.1, p.2.value)) := by
  have hndk : (children.map (fun c => c.key)).Nodup := by
    refine List.pairwise_map.mpr (hdist.imp ?_)
    intro a b hne heq
    exact hne (by rw [heq])
  have hperm1 : (sortCmp (fun a b => JSNum.jsLtB (parseIntJS a) (parseIntJS b))
      (children.map (fun c => c.key))).Perm (children.map (fun c => c.key)) :=
    sortCmp_perm _ _
  have hfind : ∀ k ∈ sortCmp (fun a b => JSNum.jsLtB (parseIntJS a) (parseIntJS b))
      (children.map (fun c => c.key)),
      ∃ c, children.find? (fun x => x.key == k) = some c := by
    intro k hkmem
    rcases List.mem_map.mp (hperm1.mem_iff.mp hkmem) with ⟨c, hcmem, rfl⟩
    exact ⟨c, find?_key_unique children c hndk hcmem⟩
  have hperm2 : ((sortCmp (fun a b => JSNum.jsLtB (parseIntJS a) (parseIntJS b))
      (children.map (fun c => c.key))).filterMap
      (fun k => children.find? (fun x => x.key == k))).Perm children := by
    refine (hperm1.filterMap _).trans ?_
    rw [List.filterMap_map]
    have hcomp : ((fun k => List.find? (fun x => x.key == k) children) ∘
        fun (c : H5Child) => c.key)
        = fun (c : H5Child) => List.find? (fun x => x.key == c.key) children := rfl
    rw [hcomp, filterMap_id_of_some _ children
      (fun c hc => find?_key_unique children c hndk hc)]
  refine ⟨(sortCmp (fun a b => JSNum.jsLtB (parseIntJS a) (parseIntJS b))
      (children.map (fun c => c.key))).filterMap
      (fun k => children.find? (fun x => x.key == k)), hperm2.symm, ?_, ?_, ?_⟩
  case _ =>
    -- sortedness: strictly ascending numeric keys
    have hpw0 := sortCmp_pairwise (fun a b => JSNum.jsLtB (parseIntJS a) (parseIntJS b))
      (fun a b h => jsLtB_asymm _ _ h)
      (fun a b c h1 h2 => jsLtB_trans _ _ _ h1 h2)
      (children.map (fun c => c.key))
    have hmapkey := filterMap_find_map_key children _ hfind
    have hpw1 : ((sortCmp (fun a b => JSNum.jsLtB (parseIntJS a) (parseIntJS b))
        (children.map (fun c => c.key))).filterMap
        (fun k => children.find? (fun x => x.key == k))).Pairwise
        (fun a b => JSNum.jsLtB (parseIntJS b.key) (parseIntJS a.key) = false) := by
      have h2 : (((sortCmp (fun a b => JSNum.jsLtB (parseIntJS a) (parseIntJS b))
          (children.map (fun c => c.key))).filterMap
          (fun k => children.find? (fun x => x.key == k))).map
          (fun c => c.key)).Pairwise
          (fun a b => JSNum.jsLtB (parseIntJS b) (parseIntJS a) = false) := by
        rw [hmapkey]
        exact hpw0
      exact List.pairwise_map.mp h2
    have hdist2 := (List.Perm.pairwise_iff
      (fun h => Ne.symm h) hperm2).mpr hdist
    refine (hpw1.and hdist2).imp_of_mem ?_
    intro a b ha hb hab
    rcases hq a (hperm2.mem_iff.mp ha) with ⟨qa, hqa⟩
    rcases hq b (hperm2.mem_iff.mp hb) with ⟨qb, hqb⟩
    rw [hqa, hqb]
    rw [hqa, hqb] at hab
    rcases hab with ⟨hfalse, hne⟩
    have hle : ¬ (qb < qa) := by
      intro hlt
      rw [show JSNum.jsLtB (JSNum.num qb) (JSNum.num qa) = decide (qb < qa) from rfl,
        decide_eq_true hlt] at hfalse
      exact Bool.noConfusion hfalse
    have hnum_ne : qa ≠ qb := fun h => hne (by rw [h])
    have hlt : qa < qb := lt_of_le_of_ne (not_lt.mp hle) hnum_ne
    show decide (qa < qb) = true
    exact decide_eq_true hlt
  case _ =>
    unfold readGroup
    rw [readGroup_foldl children _ [] [] hfind]
    simp
  case _ =>
    unfold readGroup
    rw [readGroup_foldl children _ [] [] hfind]
    simp

/-- Witness for C7: keys `["0010","0002","0001"]` with names
`["c","b","a"]` produce labels `["a","b","c"]` with values in sorted key
order, and the sorted enumeration exists by the theorem. -/
theorem readGroup_sorted_witness :
    (readGroup [⟨("0010").data, some ("c").data, [JSNum.num 1]⟩,
        ⟨("0002").data, some ("b").data, [JSNum.num 2]⟩,
        ⟨("0001").data, some ("a").data, [JSNum.num 3]⟩]).1
      = [("a").data, ("b").data, ("c").data] ∧
    (∃ cs : List H5Child,
      ([⟨("0010").data, some ("c").data, [JSNum.num 1]⟩,
        ⟨("0002").data, some ("b").data, [JSNum.num 2]⟩,
        ⟨("0001").data, some ("a").data, [JSNum.num 3]⟩] : List H5Child).Perm cs ∧
      cs.Pairwise (fun a b =>
        JSNum.jsLtB (parseIntJS a.key) (parseIntJS b.key) = true) ∧
      (readGroup [⟨("0010").data, some ("c").data, [JSNum.num 1]⟩,
        ⟨("0002").data, some ("b").data, [JSNum.num 2]⟩,
        ⟨("0001").data, some ("a").data, [JSNum.num 3]⟩]).1
        = cs.map (fun c => c.name.getD c.key) ∧
      (readGroup [⟨("0010").data, some ("c").data, [JSNum.num 1]⟩,
        ⟨("0002").data, some ("b").data, [JSNum.num 2]⟩,
        ⟨("0001").data, some ("a").data, [JSNum.num 3]⟩]).2
        = (cs.enumFrom 1).map (fun p => (p.1, p.2.value))) :=
  ⟨by with_unfolding_all decide,
   readGroup_sorted _
     (by
       intro c hc
       fin_cases hc
       · exact ⟨10, by with_unfolding_all decide⟩
       · exact ⟨2, by with_unfolding_all decide⟩
       · exact ⟨1, by with_unfolding_all decide⟩)
     (by with_unfolding_all decide)⟩

-- ---------------------------------------------------------------
-- Lemmas reducing the JS-number pipeline of `filterRates` to exact
-- rational arithmetic
-- ---------------------------------------------------------------

theorem foldl_jsMax2_num (a : ℚ) (l : List ℚ) :
    (l.map JSNum.num).foldl JSNum.jsMax2 (JSNum.num a) = JSNum.num (l.foldl max a) := by
  induction l generalizing a with
  | nil => rfl
  | cons x xs ih =>
    simp only [List.map_cons, List.foldl_cons]
    exact ih (max a x)

theorem jsMaxList_map_num (l : List ℚ) (h : l ≠ []) :
    jsMaxList (l.map JSNum.num) = JSNum.num (qpeak l) := by
  cases l with
  | nil => exact absurd rfl h
  | cons x xs =>
    show (JSNum.num x :: xs.map JSNum.num).foldl JSNum.jsMax2 JSNum.ninf = _
    rw [List.foldl_cons]
    exact foldl_jsMax2_num x xs

theorem jsDiv_num_num (a g : ℚ) (hg : g ≠ 0) :
    JSNum.jsDiv (JSNum.num a) (JSNum.num g) = JSNum.num (a / g) := by
  simp [JSNum.jsDiv, hg]

theorem enumFrom_map_pair (n : ℕ) (l : List α) (f : α → β) :
    (l.map f).enumFrom n = (l.enumFrom n).map (fun p => (p.1, f p.2)) := by
  induction l generalizing n with
  | nil => rfl
  | cons x xs ih => simp [List.enumFrom_cons, ih]

theorem filterMap_congr_fn {f g : α → Option β} (l : List α)
    (h : ∀ a ∈ l, f a = g a) : l.filterMap f = l.filterMap g := by
  induction l with
  | nil => rfl
  | cons a rest ih =>
    rw [List.filterMap_cons, List.filterMap_cons, h a (List.mem_cons_self a rest),
      ih (fun b hb => h b (List.mem_cons_of_mem a hb))]

-- ---------------------------------------------------------------
-- Stability of the sort: elements of one normalized-peak class keep
-- their original relative order
-- ---------------------------------------------------------------

theorem insertCmp_filter_of_neg (lt : α → α → Bool) (p : α → Bool) (x : α)
    (l : List α) (hx : p x = false) :
    (insertCmp lt x l).filter p = l.filter p := by
  induction l with
  | nil => simp [insertCmp, hx]
  | cons y ys ih =>
    simp only [insertCmp]
    split
    · simp [List.filter_cons, hx]
    · simp only [List.filter_cons]
      split
      · rw [ih]
      · exact ih

theorem insertCmp_filter_of_pos (key : α → ℚ) (v : ℚ) (x : α) (l : List α)
    (hx : key x = v)
    (hsorted : l.Pairwise (fun a b => decide (key a < key b) = false)) :
    (insertCmp (fun a b => decide (key b < key a)) x l).filter
        (fun a => key a == v)
      = l.filter (fun a => key a == v) ++ [x] := by
  induction l with
  | nil => simp [insertCmp, hx]
  | cons y ys ih =>
    rcases List.pairwise_cons.mp hsorted with ⟨hy, hys⟩
    simp only [insertCmp]
    split
    next hxy =>
      have hxy' : key y < key x := of_decide_eq_true hxy
      have hally : ∀ z ∈ y :: ys, (key z == v) = false := by
        intro z hz
        have hzlt : key z < v := by
          rcases List.mem_cons.mp hz with rfl | hz2
          · rw [← hx]; exact hxy'
          · have := hy z hz2
            have hle : key z ≤ key y := not_lt.mp (of_decide_eq_false this)
            rw [← hx]; exact lt_of_le_of_lt hle hxy'
        simp [ne_of_lt hzlt]
      rw [List.filter_cons_of_pos (by simp [hx])]
      rw [List.filter_eq_nil_iff.mpr (fun z hz => by simp [hally z hz])]
      simp
    next hxy =>
      simp only [List.filter_cons]
      split
      · rw [ih hys]
        rfl
      · exact ih hys

theorem sortCmpGo_filter_class (key : α → ℚ) (v : ℚ) (l acc : List α)
    (hacc : acc.Pairwise (fun a b => decide (key a < key b) = false)) :
    (sortCmpGo (fun a b => decide (key b < key a)) l acc).filter
        (fun a => key a == v)
      = acc.filter (fun a => key a == v) ++ l.filter (fun a => key a == v) := by
  induction l generalizing acc with
  | nil => simp [sortCmpGo]
  | cons x xs ih =>
    have hacc2 : (insertCmp (fun a b => decide (key b < key a)) x acc).Pairwise
        (fun a b => decide (key a < key b) = false) := by
      have := insertCmp_pairwise (fun a b => decide (key b < key a))
        (fun a b h => by
          have := of_decide_eq_true h
          exact decide_eq_false (not_lt.mpr (le_of_lt this)))
        (fun a b c h1 h2 => by
          have h1' := of_decide_eq_true h1
          have h2' := of_decide_eq_true h2
          exact decide_eq_true (lt_trans h2' h1'))
        x acc ?_
      · exact this
      · exact hacc
    show (sortCmpGo _ xs (insertCmp _ x acc)).filter _ = _
    rw [ih _ hacc2]
    by_cases hx : key x = v
    · rw [insertCmp_filter_of_pos key v x acc hx hacc,
        List.filter_cons_of_pos (by simp [hx]), List.append_assoc]
      rfl
    · rw [insertCmp_filter_of_neg _ _ x acc (by simp [hx]),
        List.filter_cons_of_neg (by simp [hx])]

theorem sortCmp_filter_class (key : α → ℚ) (v : ℚ) (l : List α) :
    (sortCmp (fun a b => decide (key b < key a)) l).filter (fun a => key a == v)
      = l.filter (fun a => key a == v) := by
  have := sortCmpGo_filter_class key v l [] List.Pairwise.nil
  simpa [sortCmp] using this

-- ---------------------------------------------------------------
-- C2
-- ---------------------------------------------------------------

/-- C2: with a nonempty candidate list, nonempty weighted series of
finite values, and a positive global peak, `filterRates` behaves exactly
as specified over the rationals: there is a reordering `sorted` of the
normalized-peak pairs that is descending (`Pairwise ≥`), preserves the
original input order inside every class of equal normalized peaks
(stability), and the result selects from `sorted` by 0-based rank:
ranks below `minRates` always; ranks in `[minRates, maxRates)` iff
`delta = 0` or the normalized peak exceeds `delta`; ranks at or beyond
`maxRates` iff `delta > 0` and the normalized peak exceeds `1 - delta` —
returned in that descending order. -/
theorem filterRates_spec (wq : ℕ → List ℚ) (ids : List ℕ) (dq : ℚ)
    (maxRates minRates : ℕ)
    (hne : ids ≠ [])
    (hser : ∀ id ∈ ids, wq id ≠ [])
    (hpos : 0 < qpeak (ids.map (fun id => qpeak (wq id)))) :
    ∃ sorted : List (ℕ × ℚ),
      (ids.zip (ids.map (fun id =>
          qpeak (wq id) / qpeak (ids.map (fun id2 => qpeak (wq id2)))))).Perm sorted
      ∧ sorted.Pairwise (fun a b => b.2 ≤ a.2)
      ∧ (∀ v : ℚ, sorted.filter (fun a => a.2 == v)
          = (ids.zip (ids.map (fun id =>
              qpeak (wq id) / qpeak (ids.map (fun id2 => qpeak (wq id2)))))).filter
              (fun a => a.2 == v))
      ∧ filterRates (fun id => (wq id).map JSNum.num) ids (JSNum.num dq)
            maxRates minRates
          = (sortCmp (fun a b : ℕ × ℚ => decide (b.2 < a.2))
              (ids.zip (ids.map (fun id =>
                qpeak (wq id) / qpeak (ids.map (fun id2 => qpeak (wq id2))))))).enum.filterMap
              (fun p =>
                if p.1 < minRates then some p.2.1
                else if p.1 < maxRates then
                  (if dq = 0 ∨ dq < p.2.2 then some p.2.1 else none)
                else (if 0 < dq ∧ 1 - dq < p.2.2 then some p.2.1 else none)) := by
  refine ⟨sortCmp (fun a b : ℕ × ℚ => decide (b.2 < a.2))
    (ids.zip (ids.map (fun id =>
      qpeak (wq id) / qpeak (ids.map (fun id2 => qpeak (wq id2)))))), ?_, ?_, ?_, ?_⟩
  case _ => exact (sortCmp_perm _ _).symm
  case _ =>
    have hpw := sortCmp_pairwise (fun a b : ℕ × ℚ => decide (b.2 < a.2))
      (fun a b h => decide_eq_false (not_lt.mpr (le_of_lt (of_decide_eq_true h))))
      (fun a b c h1 h2 =>
        decide_eq_true (lt_trans (of_decide_eq_true h2) (of_decide_eq_true h1)))
      (ids.zip (ids.map (fun id =>
        qpeak (wq id) / qpeak (ids.map (fun id2 => qpeak (wq id2))))))
    exact hpw.imp (fun hab => not_lt.mp (of_decide_eq_false hab))
  case _ =>
    intro v
    exact sortCmp_filter_class (fun (p : ℕ × ℚ) => p.2) v _
  case _ =>
    have hgne : qpeak (ids.map (fun id => qpeak (wq id))) ≠ 0 := ne_of_gt hpos
    have hmax : ids.map (fun id => jsMaxList ((wq id).map JSNum.num))
        = (ids.map (fun id => qpeak (wq id))).map JSNum.num := by
      rw [List.map_map]
      exact List.map_congr_left
        (fun id hid => jsMaxList_map_num (wq id) (hser id hid))
    have hmapnn : ids.map (fun id => qpeak (wq id)) ≠ [] := by
      intro h
      exact hne (List.map_eq_nil_iff.mp h)
    have hglobal : jsMaxList ((ids.map (fun id => qpeak (wq id))).map JSNum.num)
        = JSNum.num (qpeak (ids.map (fun id => qpeak (wq id)))) :=
      jsMaxList_map_num _ hmapnn
    have hnorm : ((ids.map (fun id => qpeak (wq id))).map JSNum.num).map
          (fun v => JSNum.jsDiv v
            (JSNum.num (qpeak (ids.map (fun id => qpeak (wq id))))))
        = (ids.map (fun id =>
            qpeak (wq id) / qpeak (ids.map (fun id2 => qpeak (wq id2))))).map
            JSNum.num := by
      rw [List.map_map, List.map_map, List.map_map]
      exact List.map_congr_left
        (fun id _ => jsDiv_num_num (qpeak (wq id)) _ hgne)
    have hzip : ids.zip ((ids.map (fun id =>
          qpeak (wq id) / qpeak (ids.map (fun id2 => qpeak (wq id2))))).map JSNum.num)
        = (ids.zip (ids.map (fun id =>
            qpeak (wq id) / qpeak (ids.map (fun id2 => qpeak (wq id2)))))).map
            (fun p => (p.1, JSNum.num p.2)) := by
      rw [List.zip_map_right]
      exact List.map_congr_left (fun (p : ℕ × ℚ) _ => rfl)
    have hsortmap : sortCmp (fun a b => JSNum.jsGtB a.2 b.2)
          ((ids.zip (ids.map (fun id =>
            qpeak (wq id) / qpeak (ids.map (fun id2 => qpeak (wq id2)))))).map
            (fun p => (p.1, JSNum.num p.2)))
        = (sortCmp (fun a b : ℕ × ℚ => decide (b.2 < a.2))
            (ids.zip (ids.map (fun id =>
              qpeak (wq id) / qpeak (ids.map (fun id2 => qpeak (wq id2))))))).map
            (fun p => (p.1, JSNum.num p.2)) :=
      sortCmp_map _ _ _ (fun a b => rfl) _
    have henum : ((sortCmp (fun a b : ℕ × ℚ => decide (b.2 < a.2))
          (ids.zip (ids.map (fun id =>
            qpeak (wq id) / qpeak (ids.map (fun id2 => qpeak (wq id2))))))).map
          (fun p => (p.1, JSNum.num p.2))).enum
        = ((sortCmp (fun a b : ℕ × ℚ => decide (b.2 < a.2))
            (ids.zip (ids.map (fun id =>
              qpeak (wq id) / qpeak (ids.map (fun id2 => qpeak (wq id2))))))).enum).map
            (fun p => (p.1, (p.2.1, JSNum.num p.2.2))) := by
      show List.enumFrom 0 _ = _
      exact enumFrom_map_pair 0 _ _
    have hpoint : ∀ p : ℕ × (ℕ × ℚ),
        (if p.1 < minRates then some p.2.1
         else if p.1 < maxRates then
           (if JSNum.num dq = JSNum.num 0 ∨
               JSNum.jsGtB (JSNum.num p.2.2) (JSNum.num dq) then some p.2.1 else none)
         else
           (if JSNum.jsGtB (JSNum.num dq) (JSNum.num 0) ∧
               JSNum.jsGtB (JSNum.num p.2.2) (JSNum.jsSub (JSNum.num 1) (JSNum.num dq))
            then some p.2.1 else none))
        = (if p.1 < minRates then some p.2.1
           else if p.1 < maxRates then
             (if dq = 0 ∨ dq < p.2.2 then some p.2.1 else none)
           else (if 0 < dq ∧ 1 - dq < p.2.2 then some p.2.1 else none)) := by
      intro p
      by_cases h1 : p.1 < minRates
      · simp [h1]
      · by_cases h2 : p.1 < maxRates
        · simp only [if_neg h1, if_pos h2]
          refine if_congr ?_ rfl rfl
          constructor
          · rintro (h | h)
            · exact Or.inl (JSNum.num.inj h)
            · refine Or.inr ?_
              have hdec : decide (dq < p.2.2) = true := h
              exact of_decide_eq_true hdec
          · rintro (h | h)
            · exact Or.inl (by rw [h])
            · refine Or.inr ?_
              show decide (dq < p.2.2) = true
              exact decide_eq_true h
        · simp only [if_neg h1, if_neg h2]
          refine if_congr ?_ rfl rfl
          constructor
          · rintro ⟨ha, hb⟩
            have ha' : decide (0 < dq) = true := ha
            have hb' : decide (1 - dq < p.2.2) = true := hb
            exact ⟨of_decide_eq_true ha', of_decide_eq_true hb'⟩
          · rintro ⟨ha, hb⟩
            exact ⟨decide_eq_true ha, decide_eq_true hb⟩
    unfold filterRates
    rw [if_neg hne]
    simp only [hmax, hglobal]
    rw [if_neg (fun hcontra => hgne (JSNum.num.inj hcontra))]
    simp only [hnorm, hzip, hsortmap, henum, List.filterMap_map]
    exact filterMap_congr_fn _ (fun p _ => hpoint p)

/-- The weighted series of the specification's worked example: one-point
series with peaks `[10, 8, 1, 1, 1, 1, 1, 1, 1, 0.05]`. -/
def wqExample (id : ℕ) : List ℚ :=
  [([10, 8, 1, 1, 1, 1, 1, 1, 1, 1/20] : List ℚ).getD (id - 1) 0]

/-- Witness for C2 at the worked example (`delta = 0.3`, `maxRates = 3`,
`minRates = 1`): the filter selects exactly the two strongest reactions,
and the characterization theorem applies. -/
theorem filterRates_spec_witness :
    filterRates (fun id => (wqExample id).map JSNum.num)
        [1, 2, 3, 4, 5, 6, 7, 8, 9, 10] (JSNum.num (3/10)) 3 1 = [1, 2] ∧
    (∃ sorted : List (ℕ × ℚ),
      (([1, 2, 3, 4, 5, 6, 7, 8, 9, 10] : List ℕ).zip
          (([1, 2, 3, 4, 5, 6, 7, 8, 9, 10] : List ℕ).map (fun id =>
            qpeak (wqExample id) / qpeak (([1, 2, 3, 4, 5, 6, 7, 8, 9, 10] : List ℕ).map
              (fun id2 => qpeak (wqExample id2)))))).Perm sorted
      ∧ sorted.Pairwise (fun a b => b.2 ≤ a.2)
      ∧ (∀ v : ℚ, sorted.filter (fun a => a.2 == v)
          = (([1, 2, 3, 4, 5, 6, 7, 8, 9, 10] : List ℕ).zip
              (([1, 2, 3, 4, 5, 6, 7, 8, 9, 10] : List ℕ).map (fun id =>
                qpeak (wqExample id) / qpeak (([1, 2, 3, 4, 5, 6, 7, 8, 9, 10] : List ℕ).map
                  (fun id2 => qpeak (wqExample id2)))))).filter (fun a => a.2 == v))
      ∧ filterRates (fun id => (wqExample id).map JSNum.num)
            [1, 2, 3, 4, 5, 6, 7, 8, 9, 10] (JSNum.num (3/10)) 3 1
          = (sortCmp (fun a b : ℕ × ℚ => decide (b.2 < a.2))
              (([1, 2, 3, 4, 5, 6, 7, 8, 9, 10] : List ℕ).zip
                (([1, 2, 3, 4, 5, 6, 7, 8, 9, 10] : List ℕ).map (fun id =>
                  qpeak (wqExample id) / qpeak (([1, 2, 3, 4, 5, 6, 7, 8, 9, 10] : List ℕ).map
                    (fun id2 => qpeak (wqExample id2))))))).enum.filterMap
              (fun p =>
                if p.1 < 1 then some p.2.1
                else if p.1 < 3 then
                  (if (3 : ℚ)/10 = 0 ∨ (3 : ℚ)/10 < p.2.2 then some p.2.1 else none)
                else (if 0 < (3 : ℚ)/10 ∧ 1 - (3 : ℚ)/10 < p.2.2 then some p.2.1 else none))) :=
  ⟨by with_unfolding_all decide,
   filterRates_spec wqExample [1, 2, 3, 4, 5, 6, 7, 8, 9, 10] (3/10) 3 1
     (by decide)
     (by intro id hid; simp [wqExample])
     (by with_unfolding_all decide)⟩
